import Mathlib

/-!
Shallow embedding of `procfinder.py` (ProcFinder 0.3.0).

The `ProcFinder` class takes a snapshot of the numeric entries of `/proc`
at construction time and runs seven independent detector routines over it.
We model the kernel / host state visible to one scan as a `World`:
the snapshot (`pids`, the `_pids` attribute), the per-process pseudo-files
(`exe`, `environ`, `fd`, `fdLink`, `task`, `cwd`, where `none` models an
`OSError` on access, i.e. the process vanished or the file is unreadable),
the optional `/proc/net/packet` table (`packet`, `none` = file absent,
`some lines` = its lines as produced by `readlines()`), and the standard
output of `ps -eo pid --no-headers` (`psOutput`, `none` = the
`communicate(timeout=15)` call raised `TimeoutExpired`).

String manipulation is modelled structurally on `List Char` so that every
definition evaluates by kernel reduction; `String` fields are unpacked with
`String.data`.  Python exceptions that escape a detector body are modelled
with `Except Exn`.
-/

set_option autoImplicit false

/-- Python exceptions that can escape a detector body in the source. -/
inductive Exn where
  | timeout
  | valueError
  | indexError
  | nameError
deriving DecidableEq, Repr

/-- Host state visible to one scan, plus the `_pids` snapshot. -/
structure World where
  pids : List Int
  exe : Int → Option String
  environ : Int → Option String
  fd : Int → Option (List String)
  fdLink : Int → String → Option String
  task : Int → Option (List String)
  cwd : Int → Option String
  packet : Option (List String)
  psOutput : Option String

/-- Split a character list at every character satisfying `p`
(each separator occurrence starts a new chunk, like `str.split(sep)`). -/
def chSplitP (p : Char → Bool) : List Char → List (List Char)
  | [] => [[]]
  | c :: rest =>
    let r := chSplitP p rest
    if p c then [] :: r
    else
      match r with
      | [] => [[c]]
      | h :: t => (c :: h) :: t

/-- `s.split(sep)` for a one-character separator, on character lists. -/
def chSplit (sep : Char) (l : List Char) : List (List Char) :=
  chSplitP (fun c => c == sep) l

/-- Python whitespace (the characters stripped by `str.split()` / `str.strip()`). -/
def isPyWs (c : Char) : Bool :=
  c == ' ' || c == '\t' || c == '\n' || c == '\r' || c == '\x0b' || c == '\x0c'

/-- `str.split()` with no argument: split on whitespace runs, dropping empty chunks. -/
def pySplitWs (l : List Char) : List (List Char) :=
  (chSplitP isPyWs l).filter (fun x => !x.isEmpty)

/-- Iterating a text file in Python yields its lines with the newline kept;
a trailing newline does not produce an extra empty line. -/
def pyLinesC (l : List Char) : List (List Char) :=
  let parts := chSplit '\n' l
  let lns := parts.dropLast.map (fun t => t ++ ['\n'])
  match parts.getLast? with
  | some [] => lns
  | some t => lns ++ [t]
  | none => lns

/-- `str.strip()` of whitespace on both ends. -/
def trimWs (l : List Char) : List Char :=
  ((l.dropWhile isPyWs).reverse.dropWhile isPyWs).reverse

/-- Value of a non-empty all-digit character list, else `none`. -/
def digitsVal (l : List Char) : Option Nat :=
  if l ≠ [] ∧ l.all (fun c => c.isDigit) then
    some (l.foldl (fun a c => a * 10 + (c.toNat - 48)) 0)
  else none

/-- Python `int(s)`: strip whitespace, optional sign, decimal digits;
any other shape raises `ValueError` (modelled as `none`).  (Underscore
digit separators, accepted by CPython, are not modelled; no claim
involves them.) -/
def pyIntC (l : List Char) : Option Int :=
  match trimWs l with
  | '-' :: rest => (digitsVal rest).map (fun n => -(n : Int))
  | '+' :: rest => (digitsVal rest).map (fun n => (n : Int))
  | t => (digitsVal t).map (fun n => (n : Int))

/-- Python `int` applied to a string. -/
def pyIntS (s : String) : Option Int :=
  pyIntC s.data

/-- `[int(x) for x in l]`: all-or-nothing, `none` models the `ValueError`. -/
def pyIntList : List (List Char) → Option (List Int)
  | [] => some []
  | s :: rest =>
    match pyIntC s, pyIntList rest with
    | some i, some r => some (i :: r)
    | _, _ => none

/-- Whether `pat` occurs as a contiguous sublist of `l`; models the
non-emptiness of `re.findall(pat, s)` for a pattern with no regex
metacharacters (the socket-inode strings used in `promiscuous_check`
are decimal digits, for which the regex is a literal search). -/
def occursIn (pat : List Char) : List Char → Bool
  | [] => pat.isEmpty
  | l@(_ :: t) => pat.isPrefixOf l || occursIn pat t

/-- First-occurrence deduplication with an accumulator of already-seen values. -/
def dedupAcc (seen : List Int) : List Int → List Int
  | [] => []
  | x :: r => if x ∈ seen then dedupAcc seen r else x :: dedupAcc (x :: seen) r

/-- Models `list(set(a).symmetric_difference(b))`: the set of elements in
exactly one of the two lists.  (The element order of a Python `set` is
unspecified; we fix the first-occurrence order, and state every claim
about this value through membership.) -/
def symmDiffL (a b : List Int) : List Int :=
  dedupAcc [] (a.filter (fun x => decide (x ∉ b)) ++ b.filter (fun x => decide (x ∉ a)))

/-- `re.match(".*\(deleted\)$", s)` on a newline-free prefix: the part
matched by the pattern may not contain a newline and `$` also matches
just before one trailing newline. -/
def deletedCore (l : List Char) : Bool :=
  !(l.contains '\n') && "(deleted)".data.isSuffixOf l

/-- Truth of `re.match(".*\(deleted\)$", s)`, used by `deleted_check`. -/
def deletedCond (s : String) : Bool :=
  deletedCore s.data ||
    (match s.data.getLast? with
     | some c => (c == '\n') && deletedCore s.data.dropLast
     | none => false)

/-- Truth of `re.match("^/tmp.*|^/dev/shm.*|^/var/tmp.*", s)`, used by
`cwd_check`: each alternative is anchored, so this is a prefix test. -/
def cwdCond (s : String) : Bool :=
  "/tmp".data.isPrefixOf s.data || "/dev/shm".data.isPrefixOf s.data ||
    "/var/tmp".data.isPrefixOf s.data

/-- Truth of `re.match("^PATH=.*\..*", j)` on an environment entry:
the entry starts with `PATH=` and a literal dot occurs after it, in the
same newline-free stretch (`.` in the pattern does not cross a newline). -/
def pathCondC (l : List Char) : Bool :=
  "PATH=".data.isPrefixOf l && ((l.drop 5).takeWhile (fun c => c != '\n')).contains '.'

/-- Truth of `re.match("LD_PRELOAD=.*", j)` on an environment entry. -/
def preloadCondC (l : List Char) : Bool :=
  "LD_PRELOAD=".data.isPrefixOf l

/-- `deleted_check` body: for each pid read `/proc/pid/exe` (an `OSError`
skips the pid) and keep the pid when the link text matches the pattern. -/
def deletedRun (w : World) : List Int → List Int
  | [] => []
  | p :: rest =>
    match w.exe p with
    | none => deletedRun w rest
    | some link =>
      if deletedCond link then p :: deletedRun w rest else deletedRun w rest

/-- `ProcFinder.deleted_check`. -/
def deleted_check (w : World) : List Int :=
  deletedRun w w.pids

/-- `cwd_check` body: read `/proc/pid/cwd`, skip on `OSError`, keep the pid
when the link matches the anchored alternation. -/
def cwdRun (w : World) : List Int → List Int
  | [] => []
  | p :: rest =>
    match w.cwd p with
    | none => cwdRun w rest
    | some link =>
      if cwdCond link then p :: cwdRun w rest else cwdRun w rest

/-- `ProcFinder.cwd_check`. -/
def cwd_check (w : World) : List Int :=
  cwdRun w w.pids

/-- Shared body of `path_check` and `preload_check`.  The source reuses the
loop variable: `for i in open_env: env_list = i.split("\x00")` leaves in
`env_list` only the split of the LAST line of the environ file, and the
variable persists across iterations of the pid loop, so a pid whose
environ file is empty is scanned against the previous pid's entries —
and if no entry list was ever assigned, `for j in env_list` raises an
uncaught `NameError` (only `OSError` is caught).  One pid is appended
once per matching entry. -/
def envRun (w : World) (cond : List Char → Bool) :
    Option (List (List Char)) → List Int → Except Exn (List Int)
  | _, [] => Except.ok []
  | envl, p :: rest =>
    match w.environ p with
    | none => envRun w cond envl rest
    | some s =>
      match (pyLinesC s.data).getLast? with
      | none =>
        match envl with
        | none => Except.error Exn.nameError
        | some el =>
          match envRun w cond envl rest with
          | Except.error e => Except.error e
          | Except.ok r => Except.ok (((el.filter cond).map (fun _ => p)) ++ r)
      | some line =>
        let el := chSplit '\x00' line
        match envRun w cond (some el) rest with
        | Except.error e => Except.error e
        | Except.ok r => Except.ok (((el.filter cond).map (fun _ => p)) ++ r)

/-- `ProcFinder.path_check`. -/
def path_check (w : World) : Except Exn (List Int) :=
  envRun w pathCondC none w.pids

/-- `ProcFinder.preload_check`. -/
def preload_check (w : World) : Except Exn (List Int) :=
  envRun w preloadCondC none w.pids

/-- Inode column extraction for `promiscuous_check`: for every line after
the header, `i.split()[-1]`; an all-whitespace line raises `IndexError`
(modelled as `none`). -/
def buildInodes : List String → Option (List (List Char))
  | [] => some []
  | l :: rest =>
    match (pySplitWs l.data).getLast? with
    | none => none
    | some ino =>
      match buildInodes rest with
      | none => none
      | some r => some (ino :: r)

/-- Inner fd loop of `promiscuous_check`: read each fd symlink (an
`OSError` skips that fd) and append the pid, at most once, when some
collected inode occurs in the link text. -/
def fdScan (w : World) (inodes : List (List Char)) (p : Int) (acc : List Int) :
    List String → List Int
  | [] => acc
  | f :: rest =>
    match w.fdLink p f with
    | none => fdScan w inodes p acc rest
    | some link =>
      let hit := inodes.any (fun ino => occursIn ino link.data)
      let acc1 := if hit = true ∧ ¬ p ∈ acc then acc ++ [p] else acc
      fdScan w inodes p acc1 rest

/-- Pid loop of `promiscuous_check`: an `OSError` listing `/proc/pid/fd`
skips the pid. -/
def promRun (w : World) (inodes : List (List Char)) (acc : List Int) :
    List Int → List Int
  | [] => acc
  | p :: rest =>
    match w.fd p with
    | none => promRun w inodes acc rest
    | some fds => promRun w inodes (fdScan w inodes p acc fds) rest

/-- `ProcFinder.promiscuous_check`.  `Except.ok none` models the Python
return value `-1` (the `/proc/net/packet` file does not exist);
`Except.ok (some l)` models returning the list `l`. -/
def promiscuous_check (w : World) : Except Exn (Option (List Int)) :=
  match w.packet with
  | none => Except.ok none
  | some lines =>
    match buildInodes (lines.drop 1) with
    | none => Except.error Exn.indexError
    | some inodes => Except.ok (some (promRun w inodes [] w.pids))

/-- `output.decode().split("\n")[:-2]` from `ps_check`: the trailing empty
segment AND the last pid line of the tool's output are both dropped. -/
def psTrunc (out : String) : List (List Char) :=
  ((chSplit '\n' out.data).dropLast).dropLast

/-- `ProcFinder.ps_check`.  A `TimeoutExpired` from
`communicate(timeout=15)` is modelled by `psOutput = none`; it is not
caught anywhere in the source.  (`output_striped` is computed by the
source but never used, so it does not appear here.) -/
def ps_check (w : World) : Except Exn (List Int) :=
  match w.psOutput with
  | none => Except.error Exn.timeout
  | some out =>
    match pyIntList (psTrunc out) with
    | none => Except.error Exn.valueError
    | some ints => Except.ok (symmDiffL ints w.pids)

/-- `thread_check` body: list `/proc/pid/task` (an `OSError` skips the
pid), then compute `int(thread_dirs[-1]) - int(thread_dirs[0])` — the
LAST and FIRST entries in listing order; an empty listing raises
`IndexError` and a non-numeric entry raises `ValueError`, neither of
which is caught. -/
def threadRun (w : World) : List Int → Except Exn (List Int)
  | [] => Except.ok []
  | p :: rest =>
    match w.task p with
    | none => threadRun w rest
    | some dirs =>
      match dirs.getLast? with
      | none => Except.error Exn.indexError
      | some lastS =>
        match dirs.head? with
        | none => Except.error Exn.indexError
        | some firstS =>
          match pyIntS lastS with
          | none => Except.error Exn.valueError
          | some lastI =>
            match pyIntS firstS with
            | none => Except.error Exn.valueError
            | some firstI =>
              match threadRun w rest with
              | Except.error e => Except.error e
              | Except.ok r =>
                Except.ok (if lastI - firstI > 1000 then p :: r else r)

/-- `ProcFinder.thread_check`. -/
def thread_check (w : World) : Except Exn (List Int) :=
  threadRun w w.pids

/-- The per-pid flag condition of `thread_check`, extracted for the
membership characterisation. -/
def threadFlag (w : World) (p : Int) : Bool :=
  match w.task p with
  | none => false
  | some dirs =>
    match dirs.getLast?, dirs.head? with
    | some lastS, some firstS =>
      match pyIntS lastS, pyIntS firstS with
      | some lastI, some firstI => decide (lastI - firstI > 1000)
      | _, _ => false
    | _, _ => false

/-- The results `main` collects, one per detector, in invocation order. -/
structure ScanResults where
  deleted : List Int
  path : List Int
  promiscuous : Option (List Int)
  ps : List Int
  thread : List Int
  cwd : List Int
  preload : List Int

/-- The detector invocation sequence of `main` (presentation stripped):
`deleted_check`, `path_check`, `promiscuous_check`, `ps_check`,
`thread_check`, `cwd_check`, `preload_check`.  No invocation is guarded
by a `try`, so the first uncaught exception aborts the remaining
detectors; the `Except` monad models that propagation. -/
def runScan (w : World) : Except Exn ScanResults := do
  let d := deleted_check w
  let pa ← path_check w
  let pr ← promiscuous_check w
  let ps ← ps_check w
  let th ← thread_check w
  let c := cwd_check w
  let pl ← preload_check w
  Except.ok ⟨d, pa, pr, ps, th, c, pl⟩

/-- A Python value that may appear as an element of the list assigned to
the `pids` property: an `int`, or anything else. -/
inductive PyElem where
  | int (n : Int)
  | other
deriving DecidableEq, Repr

/-- A Python value assigned to the `pids` property: a list, or anything else. -/
inductive PyObj where
  | list (l : List PyElem)
  | nonList
deriving DecidableEq, Repr

/-- Whether a `PyElem` is an `int`. -/
def PyElem.isInt : PyElem → Bool
  | .int _ => true
  | .other => false

/-- Loop body of the `pids` setter: for each element, if it is an `int`
the WHOLE assigned list is stored into `_pids`, else `TypeError` is
raised immediately (the `Bool` is the raised flag); the first component
is the final value of `_pids`. -/
def setterRun (full : List PyElem) (cur : List PyElem) :
    List PyElem → List PyElem × Bool
  | [] => (cur, false)
  | e :: rest =>
    match e with
    | .int _ => setterRun full full rest
    | .other => (cur, true)

/-- The `pids` property setter: given the current `_pids` contents and the
assigned value, return the resulting `_pids` contents and whether a
`TypeError` was raised. -/
def pids_setter (old : List PyElem) (v : PyObj) : List PyElem × Bool :=
  match v with
  | .nonList => (old, true)
  | .list l => setterRun l old l

/-- Modelled from the spec: "any environment entry whose key is exactly
`LD_PRELOAD`" — the null-separated entries of the whole environ block,
one of which starts with `LD_PRELOAD=`. -/
def specHasPreload (s : String) : Bool :=
  (chSplit '\x00' s.data).any (fun e => "LD_PRELOAD=".data.isPrefixOf e)

/-- Modelled from the spec: the thread-ID spread, "the numerically largest
thread-directory name minus the numerically smallest". -/
def specSpread (dirs : List String) : Option Int :=
  match pyIntList (dirs.map (fun s => s.data)) with
  | none => none
  | some [] => none
  | some (i :: is) => some (is.foldl max i - is.foldl min i)

/-- Modelled from the spec: the PID set of the external tool's output,
"one PID per line" — every non-empty line parsed as an integer. -/
def specPsPids (out : String) : List Int :=
  ((chSplit '\n' out.data).filter (fun l => !l.isEmpty)).filterMap pyIntC

/-- Whether an `Except` computation completed without an exception. -/
def isOkE {α : Type} : Except Exn α → Bool
  | Except.ok _ => true
  | Except.error _ => false

/-- Hypothesis for completion of `thread_check` at one pid: the task
listing, when readable, is non-empty with numeric first and last entries. -/
def taskWF (w : World) (p : Int) : Bool :=
  match w.task p with
  | none => true
  | some dirs =>
    match dirs.getLast?, dirs.head? with
    | some lastS, some firstS => (pyIntS lastS).isSome && (pyIntS firstS).isSome
    | _, _ => false

/-- Hypothesis for completion of `path_check` / `preload_check` at one
pid: the environ block, when readable, is non-empty. -/
def envWF (w : World) (p : Int) : Bool :=
  match w.environ p with
  | none => true
  | some s => !s.data.isEmpty

/-- Hypothesis for completion of `promiscuous_check`: every non-header
line of the packet table has at least one whitespace-delimited field. -/
def packetWF (w : World) : Bool :=
  match w.packet with
  | none => true
  | some lines => (lines.drop 1).all (fun l => !(pySplitWs l.data).isEmpty)

/-! ### Helper lemmas -/

theorem mem_dedupAcc (x : Int) :
    ∀ (l seen : List Int), x ∈ dedupAcc seen l ↔ x ∈ l ∧ x ∉ seen := by
  intro l
  induction l with
  | nil => intro seen; simp [dedupAcc]
  | cons y r ih =>
    intro seen
    by_cases h : y ∈ seen
    · rw [dedupAcc, if_pos h, ih]
      constructor
      · rintro ⟨hr, hs⟩; exact ⟨List.mem_cons_of_mem y hr, hs⟩
      · rintro ⟨hy, hs⟩
        rcases List.mem_cons.mp hy with rfl | hr
        · exact absurd h hs
        · exact ⟨hr, hs⟩
    · rw [dedupAcc, if_neg h]
      constructor
      · intro hx
        rcases List.mem_cons.mp hx with rfl | hx
        · exact ⟨List.mem_cons_self x r, h⟩
        · rcases (ih (y :: seen)).mp hx with ⟨hr, hs⟩
          rw [List.mem_cons] at hs
          push_neg at hs
          exact ⟨List.mem_cons_of_mem y hr, hs.2⟩
      · rintro ⟨hy, hs⟩
        rcases List.mem_cons.mp hy with rfl | hr
        · exact List.mem_cons_self x _
        · by_cases hxy : x = y
          · subst hxy; exact List.mem_cons_self x _
          · refine List.mem_cons_of_mem y ((ih (y :: seen)).mpr ⟨hr, ?_⟩)
            rw [List.mem_cons]; push_neg; exact ⟨hxy, hs⟩

theorem mem_symmDiffL (x : Int) (a b : List Int) :
    x ∈ symmDiffL a b ↔ (x ∈ a ∧ x ∉ b) ∨ (x ∈ b ∧ x ∉ a) := by
  rw [symmDiffL, mem_dedupAcc]
  simp [List.mem_filter]

theorem deletedRun_subset (w : World) (x : Int) :
    ∀ l : List Int, x ∈ deletedRun w l → x ∈ l := by
  intro l
  induction l with
  | nil => simp [deletedRun]
  | cons p r ih =>
    intro hx
    rcases hw : w.exe p with _ | link
    · simp only [deletedRun, hw] at hx
      exact List.mem_cons_of_mem p (ih hx)
    · simp only [deletedRun, hw] at hx
      by_cases hc : deletedCond link = true
      · rw [if_pos hc] at hx
        rcases List.mem_cons.mp hx with rfl | hx
        · exact List.mem_cons_self x r
        · exact List.mem_cons_of_mem p (ih hx)
      · rw [if_neg hc] at hx; exact List.mem_cons_of_mem p (ih hx)

theorem deletedRun_skip (w : World) (x : Int) (hx : w.exe x = none) :
    ∀ l : List Int, x ∉ deletedRun w l := by
  intro l
  induction l with
  | nil => simp [deletedRun]
  | cons p r ih =>
    rcases hw : w.exe p with _ | link
    · simp only [deletedRun, hw]
      exact ih
    · simp only [deletedRun, hw]
      by_cases hc : deletedCond link = true
      · rw [if_pos hc]
        intro hmem
        rcases List.mem_cons.mp hmem with rfl | hmem
        · rw [hx] at hw; exact Option.noConfusion hw
        · exact ih hmem
      · rw [if_neg hc]; exact ih

theorem cwdRun_mem (w : World) (x : Int) :
    ∀ l : List Int,
      x ∈ cwdRun w l ↔ x ∈ l ∧ ∃ s, w.cwd x = some s ∧ cwdCond s = true := by
  intro l
  induction l with
  | nil => simp [cwdRun]
  | cons p r ih =>
    rcases hw : w.cwd p with _ | link
    · simp only [cwdRun, hw]
      rw [ih]
      constructor
      · rintro ⟨hr, hs⟩; exact ⟨List.mem_cons_of_mem p hr, hs⟩
      · rintro ⟨hy, s, hs, hc⟩
        rcases List.mem_cons.mp hy with rfl | hr
        · rw [hw] at hs; exact Option.noConfusion hs
        · exact ⟨hr, s, hs, hc⟩
    · simp only [cwdRun, hw]
      by_cases hc : cwdCond link = true
      · rw [if_pos hc]
        constructor
        · intro hmem
          rcases List.mem_cons.mp hmem with rfl | hmem
          · exact ⟨List.mem_cons_self x r, link, hw, hc⟩
          · rcases (ih).mp hmem with ⟨hr, hs⟩
            exact ⟨List.mem_cons_of_mem p hr, hs⟩
        · rintro ⟨hy, s, hs, hcc⟩
          rcases List.mem_cons.mp hy with rfl | hr
          · exact List.mem_cons_self x _
          · exact List.mem_cons_of_mem p (ih.mpr ⟨hr, s, hs, hcc⟩)
      · rw [if_neg hc, ih]
        constructor
        · rintro ⟨hr, hs⟩; exact ⟨List.mem_cons_of_mem p hr, hs⟩
        · rintro ⟨hy, s, hs, hcc⟩
          rcases List.mem_cons.mp hy with rfl | hr
          · rw [hw] at hs
            rcases Option.some.inj hs with rfl
            exact absurd hcc hc
          · exact ⟨hr, s, hs, hcc⟩

theorem chSplitP_ne_nil (p : Char → Bool) : ∀ l : List Char, chSplitP p l ≠ [] := by
  intro l
  induction l with
  | nil => simp [chSplitP]
  | cons c rest ih =>
    simp only [chSplitP]
    by_cases h : p c = true
    · simp [h]
    · rw [if_neg h]
      rcases hr : chSplitP p rest with _ | ⟨hd, tl⟩
      · exact absurd hr ih
      · simp

theorem chSplitP_single_nil (p : Char → Bool) :
    ∀ l : List Char, chSplitP p l = [[]] → l = [] := by
  intro l
  induction l with
  | nil => intro _; rfl
  | cons c rest ih =>
    intro h
    simp only [chSplitP] at h
    by_cases hc : p c = true
    · rw [if_pos hc] at h
      have : chSplitP p rest = [] := (List.cons.inj h).2
      exact absurd this (chSplitP_ne_nil p rest)
    · rw [if_neg hc] at h
      rcases hr : chSplitP p rest with _ | ⟨hd, tl⟩
      · exact absurd hr (chSplitP_ne_nil p rest)
      · rw [hr] at h
        exact absurd (List.cons.inj h).1 (by simp)

theorem pyLinesC_ne_nil : ∀ l : List Char, l ≠ [] → pyLinesC l ≠ [] := by
  intro l hl
  simp only [pyLinesC]
  rcases hp : chSplit '\n' l with _ | ⟨a, rest⟩
  · exact absurd hp (chSplitP_ne_nil _ l)
  · rcases rest with _ | ⟨b, rest2⟩
    · rcases a with _ | ⟨c, cs⟩
      · exact absurd (chSplitP_single_nil _ l hp) hl
      · simp
    · rcases hgl : (b :: rest2).getLast? with _ | t
      · simp [hgl]
      · rcases t with _ | ⟨c, cs⟩
        · simp [hgl]
        · simp [hgl]

theorem getLast?_some_of_ne_nil {α : Type} (l : List α) (h : l ≠ []) :
    ∃ a, l.getLast? = some a := by
  have hs : l.getLast?.isSome := by
    rw [List.getLast?_isSome]; exact h
  exact Option.isSome_iff_exists.mp hs

theorem envRun_mem (w : World) (cond : List Char → Bool) :
    ∀ (l : List Int) (envl : Option (List (List Char))) (r : List Int),
      envRun w cond envl l = Except.ok r →
      ∀ x, x ∈ r → x ∈ l ∧ w.environ x ≠ none := by
  intro l
  induction l with
  | nil =>
    intro envl r hr x hx
    simp only [envRun] at hr
    cases hr
    exact absurd hx (List.not_mem_nil x)
  | cons p rest ih =>
    intro envl r hr x hx
    rcases he : w.environ p with _ | s
    · simp only [envRun, he] at hr
      rcases ih envl r hr x hx with ⟨hm, hn⟩
      exact ⟨List.mem_cons_of_mem p hm, hn⟩
    · rcases hgl : (pyLinesC s.data).getLast? with _ | line
      · rcases henv : envl with _ | el
        · simp only [envRun, he, hgl, henv] at hr
          exact Except.noConfusion hr
        · rcases hrec : envRun w cond (some el) rest with e | r'
          · simp only [envRun, he, hgl, henv, hrec] at hr
            exact Except.noConfusion hr
          · simp only [envRun, he, hgl, henv, hrec, Except.ok.injEq] at hr
            subst hr
            rcases List.mem_append.mp hx with hx2 | hx2
            · rcases List.mem_map.mp hx2 with ⟨_, _, rfl⟩
              exact ⟨List.mem_cons_self p rest, by rw [he]; simp⟩
            · rcases ih (some el) r' hrec x hx2 with ⟨hm, hn⟩
              exact ⟨List.mem_cons_of_mem p hm, hn⟩
      · rcases hrec : envRun w cond (some (chSplit '\x00' line)) rest with e | r'
        · simp only [envRun, he, hgl, hrec] at hr
          exact Except.noConfusion hr
        · simp only [envRun, he, hgl, hrec, Except.ok.injEq] at hr
          subst hr
          rcases List.mem_append.mp hx with hx2 | hx2
          · rcases List.mem_map.mp hx2 with ⟨_, _, rfl⟩
            exact ⟨List.mem_cons_self p rest, by rw [he]; simp⟩
          · rcases ih (some (chSplit '\x00' line)) r' hrec x hx2 with ⟨hm, hn⟩
            exact ⟨List.mem_cons_of_mem p hm, hn⟩

theorem envRun_ok (w : World) (cond : List Char → Bool) :
    ∀ (l : List Int) (envl : Option (List (List Char))),
      (∀ p ∈ l, envWF w p = true) →
      ∃ r, envRun w cond envl l = Except.ok r := by
  intro l
  induction l with
  | nil => intro envl _; exact ⟨[], rfl⟩
  | cons p rest ih =>
    intro envl h
    have hp : envWF w p = true := h p (List.mem_cons_self p rest)
    have hrest : ∀ q ∈ rest, envWF w q = true :=
      fun q hq => h q (List.mem_cons_of_mem p hq)
    rcases he : w.environ p with _ | s
    · simp only [envRun, he]
      exact ih envl hrest
    · have hs : s.data ≠ [] := by
        simp only [envWF, he] at hp
        simpa using hp
      rcases getLast?_some_of_ne_nil _ (pyLinesC_ne_nil s.data hs) with ⟨line, hgl⟩
      rcases ih (some (chSplit '\x00' line)) hrest with ⟨r, hr⟩
      refine ⟨((chSplit '\x00' line).filter cond).map (fun _ => p) ++ r, ?_⟩
      simp only [envRun, he, hgl, hr]

theorem threadRun_mem (w : World) :
    ∀ (l r : List Int), threadRun w l = Except.ok r →
      ∀ x, x ∈ r ↔ x ∈ l ∧ threadFlag w x = true := by
  intro l
  induction l with
  | nil =>
    intro r hr x
    simp only [threadRun] at hr
    cases hr
    simp
  | cons p rest ih =>
    intro r hr x
    rcases ht : w.task p with _ | dirs
    · simp only [threadRun, ht] at hr
      rw [ih r hr x]
      constructor
      · rintro ⟨hm, hf⟩; exact ⟨List.mem_cons_of_mem p hm, hf⟩
      · rintro ⟨hm, hf⟩
        rcases List.mem_cons.mp hm with rfl | hm
        · rw [threadFlag, ht] at hf; exact absurd hf (by simp)
        · exact ⟨hm, hf⟩
    · rcases h1 : dirs.getLast? with _ | lastS
      · simp only [threadRun, ht, h1] at hr
        exact Except.noConfusion hr
      · rcases h2 : dirs.head? with _ | firstS
        · simp only [threadRun, ht, h1, h2] at hr
          exact Except.noConfusion hr
        · rcases h3 : pyIntS lastS with _ | lastI
          · simp only [threadRun, ht, h1, h2, h3] at hr
            exact Except.noConfusion hr
          · rcases h4 : pyIntS firstS with _ | firstI
            · simp only [threadRun, ht, h1, h2, h3, h4] at hr
              exact Except.noConfusion hr
            · rcases hrec : threadRun w rest with e | r'
              · simp only [threadRun, ht, h1, h2, h3, h4, hrec] at hr
                exact Except.noConfusion hr
              · simp only [threadRun, ht, h1, h2, h3, h4, hrec, Except.ok.injEq] at hr
                have hflagp : threadFlag w p = decide (lastI - firstI > 1000) := by
                  simp only [threadFlag, ht, h1, h2, h3, h4]
                by_cases hcond : lastI - firstI > 1000
                · rw [if_pos hcond] at hr
                  subst hr
                  rw [List.mem_cons, ih r' hrec x, List.mem_cons]
                  constructor
                  · rintro (rfl | ⟨hm, hf⟩)
                    · exact ⟨Or.inl rfl, by rw [hflagp]; simp [hcond]⟩
                    · exact ⟨Or.inr hm, hf⟩
                  · rintro ⟨rfl | hm, hf⟩
                    · exact Or.inl rfl
                    · exact Or.inr ⟨hm, hf⟩
                · rw [if_neg hcond] at hr
                  subst hr
                  rw [ih r' hrec x, List.mem_cons]
                  constructor
                  · rintro ⟨hm, hf⟩; exact ⟨Or.inr hm, hf⟩
                  · rintro ⟨rfl | hm, hf⟩
                    · rw [hflagp] at hf
                      exact absurd hf (by simp [hcond])
                    · exact ⟨hm, hf⟩

theorem threadRun_ok (w : World) :
    ∀ l : List Int, (∀ p ∈ l, taskWF w p = true) →
      ∃ r, threadRun w l = Except.ok r := by
  intro l
  induction l with
  | nil => intro _; exact ⟨[], rfl⟩
  | cons p rest ih =>
    intro h
    have hp : taskWF w p = true := h p (List.mem_cons_self p rest)
    have hrest : ∀ q ∈ rest, taskWF w q = true :=
      fun q hq => h q (List.mem_cons_of_mem p hq)
    rcases ih hrest with ⟨r, hr⟩
    rcases ht : w.task p with _ | dirs
    · exact ⟨r, by simp only [threadRun, ht]; exact hr⟩
    · simp only [taskWF, ht] at hp
      rcases h1 : dirs.getLast? with _ | lastS
      · rw [h1] at hp; exact absurd hp (by simp)
      · rw [h1] at hp
        rcases h2 : dirs.head? with _ | firstS
        · rw [h2] at hp; exact absurd hp (by simp)
        · rw [h2] at hp
          simp only [Bool.and_eq_true, Option.isSome_iff_exists] at hp
          rcases hp with ⟨⟨lastI, h3⟩, ⟨firstI, h4⟩⟩
          refine ⟨if lastI - firstI > 1000 then p :: r else r, ?_⟩
          simp only [threadRun, ht, h1, h2, h3, h4, hr]

theorem fdScan_mem (w : World) (inodes : List (List Char)) (p : Int) (x : Int) :
    ∀ (fds : List String) (acc : List Int),
      x ∈ fdScan w inodes p acc fds → x ∈ acc ∨ x = p := by
  intro fds
  induction fds with
  | nil => intro acc hx; exact Or.inl hx
  | cons f rest ih =>
    intro acc hx
    rcases hl : w.fdLink p f with _ | link
    · simp only [fdScan, hl] at hx
      exact ih acc hx
    · simp only [fdScan, hl] at hx
      by_cases hc : inodes.any (fun ino => occursIn ino link.data) = true ∧ ¬ p ∈ acc
      · rw [if_pos hc] at hx
        rcases ih (acc ++ [p]) hx with hacc | rfl
        · rcases List.mem_append.mp hacc with h | h
          · exact Or.inl h
          · exact Or.inr (List.mem_singleton.mp h)
        · exact Or.inr rfl
      · rw [if_neg hc] at hx
        exact ih acc hx

theorem promRun_mem (w : World) (inodes : List (List Char)) (x : Int) :
    ∀ (l : List Int) (acc : List Int),
      x ∈ promRun w inodes acc l → x ∈ acc ∨ x ∈ l := by
  intro l
  induction l with
  | nil => intro acc hx; exact Or.inl hx
  | cons p rest ih =>
    intro acc hx
    rcases hf : w.fd p with _ | fds
    · simp only [promRun, hf] at hx
      rcases ih acc hx with h | h
      · exact Or.inl h
      · exact Or.inr (List.mem_cons_of_mem p h)
    · simp only [promRun, hf] at hx
      rcases ih (fdScan w inodes p acc fds) hx with h | h
      · rcases fdScan_mem w inodes p x fds acc h with h | rfl
        · exact Or.inl h
        · exact Or.inr (List.mem_cons_self x rest)
      · exact Or.inr (List.mem_cons_of_mem p h)

theorem promRun_skip (w : World) (inodes : List (List Char)) (x : Int)
    (hx : w.fd x = none) :
    ∀ (l : List Int) (acc : List Int), x ∉ acc → x ∉ promRun w inodes acc l := by
  intro l
  induction l with
  | nil => intro acc hacc; exact hacc
  | cons p rest ih =>
    intro acc hacc
    rcases hf : w.fd p with _ | fds
    · simp only [promRun, hf]
      exact ih acc hacc
    · simp only [promRun, hf]
      refine ih (fdScan w inodes p acc fds) ?_
      intro hmem
      rcases fdScan_mem w inodes p x fds acc hmem with h | rfl
      · exact hacc h
      · rw [hx] at hf; exact Option.noConfusion hf

theorem buildInodes_ok :
    ∀ lines : List String, (∀ s ∈ lines, pySplitWs s.data ≠ []) →
      ∃ r, buildInodes lines = some r := by
  intro lines
  induction lines with
  | nil => intro _; exact ⟨[], rfl⟩
  | cons l rest ih =>
    intro h
    rcases getLast?_some_of_ne_nil _ (h l (List.mem_cons_self l rest)) with ⟨ino, hino⟩
    rcases ih (fun s hs => h s (List.mem_cons_of_mem l hs)) with ⟨r, hr⟩
    exact ⟨ino :: r, by simp only [buildInodes, hino, hr]⟩

theorem setterRun_allInt (full : List PyElem) :
    ∀ (l cur : List PyElem), (∀ e ∈ l, e.isInt = true) →
      setterRun full cur l = (if l = [] then cur else full, false) := by
  intro l
  induction l with
  | nil => intro cur _; simp [setterRun]
  | cons e rest ih =>
    intro cur h
    have he : e.isInt = true := h e (List.mem_cons_self e rest)
    rcases e with n | _
    · simp only [setterRun]
      rw [ih full (fun q hq => h q (List.mem_cons_of_mem _ hq))]
      by_cases hrest : rest = []
      · simp [hrest]
      · simp [hrest]
    · exact absurd he (by simp [PyElem.isInt])

theorem setterRun_raises (full : List PyElem) :
    ∀ (l cur : List PyElem), (∃ e ∈ l, e.isInt = false) →
      (setterRun full cur l).2 = true := by
  intro l
  induction l with
  | nil => rintro cur ⟨e, he, _⟩; exact absurd he (List.not_mem_nil e)
  | cons e rest ih =>
    rintro cur ⟨f, hf, hfi⟩
    rcases e with n | _
    · simp only [setterRun]
      refine ih full ⟨f, ?_, hfi⟩
      rcases List.mem_cons.mp hf with rfl | hm
      · exact absurd hfi (by simp [PyElem.isInt])
      · exact hm
    · simp [setterRun]

theorem setterRun_from_full (full : List PyElem) :
    ∀ rest : List PyElem, (∃ e ∈ rest, e.isInt = false) →
      setterRun full full rest = (full, true) := by
  intro rest
  induction rest with
  | nil => rintro ⟨e, he, _⟩; exact absurd he (List.not_mem_nil e)
  | cons e r ih =>
    rintro ⟨f, hf, hfi⟩
    rcases e with n | _
    · simp only [setterRun]
      refine ih ⟨f, ?_, hfi⟩
      rcases List.mem_cons.mp hf with rfl | hm
      · exact absurd hfi (by simp [PyElem.isInt])
      · exact hm
    · simp [setterRun]

/-! ### Concrete worlds used by witnesses and counterexamples -/

/-- A host with an empty snapshot and every resource absent. -/
def w0 : World := {
  pids := [],
  exe := fun _ => none, environ := fun _ => none, fd := fun _ => none,
  fdLink := fun _ _ => none, task := fun _ => none, cwd := fun _ => none,
  packet := none, psOutput := none }

/-- Snapshot `[1, 2]`; the tool prints exactly the PIDs `1` and `2`. -/
def w1c : World := { w0 with
  pids := [1, 2]
  psOutput := some "1\n2\n" }

/-- Snapshot `[10, 30]`; the tool prints `10`, `20`, `99`. -/
def w1w : World := { w0 with
  pids := [10, 30]
  psOutput := some "10\n20\n99\n" }

/-- A host where the `ps` invocation times out. -/
def w2c : World := { w0 with
  packet := some ["hdr"]
  psOutput := none }

/-- A host with one live process where the `ps` invocation times out. -/
def w2w : World := { w0 with
  pids := [4]
  environ := fun p => if p = 4 then some "A=1\x00" else none
  psOutput := none }

/-- One process whose environment block has `LD_PRELOAD` in its first
entry and a newline inside a later value. -/
def w3c : World := { w0 with
  pids := [1]
  environ := fun p => if p = 1 then some "LD_PRELOAD=/evil.so\x00A=b\nC=d\x00" else none }

/-- One process whose task directory lists `1200, 100, 150` in that order. -/
def w4c : World := { w0 with
  pids := [5]
  task := fun p => if p = 5 then some ["1200", "100", "150"] else none }

/-- One process whose task directory lists `100, 150, 1200` ascending. -/
def w4w : World := { w0 with
  pids := [5]
  task := fun p => if p = 5 then some ["100", "150", "1200"] else none }

/-- Process 1's environ is unreadable and process 2's environ is readable
but empty (as for a kernel thread). -/
def w5c : World := { w0 with
  pids := [1, 2]
  environ := fun p => if p = 2 then some "" else none }

/-- Process 1 vanished entirely; process 2 has well-formed resources. -/
def w5w : World := { w0 with
  pids := [1, 2]
  exe := fun p => if p = 2 then some "/bin/sh" else none
  environ := fun p => if p = 2 then some "A=1\x00" else none
  task := fun p => if p = 2 then some ["2"] else none
  fd := fun p => if p = 2 then some [] else none
  cwd := fun p => if p = 2 then some "/home" else none }

/-- One process that trips every detector at once. -/
def w6w : World := { w0 with
  pids := [3]
  exe := fun p => if p = 3 then some "/bin/a (deleted)" else none
  cwd := fun p => if p = 3 then some "/tmp/x" else none
  environ := fun p => if p = 3 then some "PATH=/a.b\x00LD_PRELOAD=\x00" else none
  task := fun p => if p = 3 then some ["100", "2000"] else none
  fd := fun p => if p = 3 then some ["4"] else none
  fdLink := fun p _ => if p = 3 then some "socket:[77]" else none
  packet := some ["hdr", "x y 77"] }

/-! ### Claims -/

/-- Claim C1, counterexample: with snapshot `[1, 2]` and a tool output whose
PID set is exactly `{1, 2}` (identical sets), `ps_check` returns `[2]`, not
the empty symmetric difference the claim requires: the source drops the
last two newline segments of the output (`[:-2]`), i.e. the trailing empty
segment and the final PID line. -/
theorem ps_check_identical_sets_not_empty :
    specPsPids "1\n2\n" = [1, 2] ∧ w1c.pids = [1, 2] ∧
      ps_check w1c = Except.ok [2] :=
  ⟨rfl, rfl, rfl⟩

/-- Claim C1 (amended): `ps_check` returns the symmetric difference between
the snapshot and the PIDs parsed from the tool's output with its trailing
empty segment AND its final PID line dropped; membership in the result is
exactly membership in one of the two compared sets and not the other. -/
theorem ps_check_truncated_symmdiff (w : World) (out : String) (ints : List Int)
    (h1 : w.psOutput = some out) (h2 : pyIntList (psTrunc out) = some ints) :
    ps_check w = Except.ok (symmDiffL ints w.pids) ∧
      ∀ x, x ∈ symmDiffL ints w.pids ↔
        ((x ∈ ints ∧ x ∉ w.pids) ∨ (x ∈ w.pids ∧ x ∉ ints)) := by
  constructor
  · simp only [ps_check, h1, h2]
  · intro x
    exact mem_symmDiffL x ints w.pids

/-- Claim C1 witness: snapshot `[10, 30]`, tool output `10, 20, 99`; the
truncated tool set is `{10, 20}` and the result is its symmetric
difference with the snapshot, containing `30`. -/
theorem ps_check_truncated_symmdiff_witness :
    ps_check w1w = Except.ok (symmDiffL [10, 20] w1w.pids) ∧
      (30 : Int) ∈ symmDiffL [10, 20] w1w.pids := by
  have h := ps_check_truncated_symmdiff w1w "10\n20\n99\n" [10, 20] rfl rfl
  exact ⟨h.1, (h.2 30).mpr (Or.inr ⟨by decide, by decide⟩)⟩

/-- Claim C2, counterexample: when the `ps` invocation times out, the
`TimeoutExpired` leaves `ps_check` uncaught and aborts the whole detector
sequence of `main` — `runScan` ends in the timeout error instead of
producing results for the remaining detectors. -/
theorem runScan_timeout_aborts :
    w2c.psOutput = none ∧ ps_check w2c = Except.error Exn.timeout ∧
      runScan w2c = Except.error Exn.timeout :=
  ⟨rfl, rfl, rfl⟩

/-- Claim C2 (amended): a timeout of the external invocation propagates
past the detector boundary: whenever the detectors before `ps_check`
complete and the `ps` invocation times out, the whole scan sequence stops
with the timeout error, so `thread_check`, `cwd_check` and
`preload_check` never contribute results. -/
theorem runScan_timeout_propagates (w : World) (a : List Int)
    (b : Option (List Int)) (hpa : path_check w = Except.ok a)
    (hpr : promiscuous_check w = Except.ok b) (hto : w.psOutput = none) :
    runScan w = Except.error Exn.timeout := by
  simp only [runScan, bind, Except.bind, hpa, hpr, ps_check, hto]

/-- Claim C2 witness: a world with one live process whose `ps` invocation
times out; the scan aborts with the timeout error. -/
theorem runScan_timeout_propagates_witness :
    runScan w2w = Except.error Exn.timeout :=
  runScan_timeout_propagates w2w [] none rfl rfl rfl

/-- Claim C3: the claim is the source's own intent (its comments say every
environment variable is scanned), but the code reuses the line-loop
variable and scans only the last line of the environ block: a block whose
`LD_PRELOAD` entry precedes a newline inside a later value is NOT
flagged, although the block contains an entry with key exactly
`LD_PRELOAD`. -/
theorem preload_check_misses_multiline :
    specHasPreload "LD_PRELOAD=/evil.so\x00A=b\nC=d\x00" = true ∧
      w3c.environ 1 = some "LD_PRELOAD=/evil.so\x00A=b\nC=d\x00" ∧
      (1 : Int) ∈ w3c.pids ∧
      preload_check w3c = Except.ok [] :=
  ⟨rfl, rfl, by decide, rfl⟩

/-- Claim C4, counterexample: with the task directory listing
`1200, 100, 150` (spread `max - min = 1100 > 1000` per the claim), the
source computes `int(last listed) - int(first listed) = 150 - 1200 < 0`
and does not flag the process. -/
theorem thread_check_order_dependent :
    w4c.task 5 = some ["1200", "100", "150"] ∧
      specSpread ["1200", "100", "150"] = some 1100 ∧
      thread_check w4c = Except.ok [] :=
  ⟨rfl, rfl, rfl⟩

/-- Claim C4 (amended): when `thread_check` completes, it flags exactly
the snapshot processes whose task listing satisfies
`int(last listed entry) - int(first listed entry) > 1000`; for ascending
listings this equals the max-minus-min spread of the claim. -/
theorem thread_check_first_last (w : World) (l : List Int)
    (hl : thread_check w = Except.ok l) (p : Int) :
    p ∈ l ↔ p ∈ w.pids ∧ threadFlag w p = true :=
  threadRun_mem w w.pids l hl p

/-- Claim C4 witness: the ascending listing `100, 150, 1200` (spread
`1100 > 1000`) flags process 5. -/
theorem thread_check_first_last_witness :
    thread_check w4w = Except.ok [5] ∧ (5 : Int) ∈ ([5] : List Int) := by
  refine ⟨rfl, ?_⟩
  exact (thread_check_first_last w4w [5] rfl 5).mpr ⟨by decide, by decide⟩

/-- Claim C5, counterexample: process 1's environment block is absent, and
process 2's is readable but empty; `path_check` then hits the uncaught
`NameError` (`env_list` referenced before assignment) instead of
completing with a result for the remaining processes. -/
theorem path_check_nameError :
    w5c.environ 1 = none ∧ (1 : Int) ∈ w5c.pids ∧
      path_check w5c = Except.error Exn.nameError :=
  ⟨rfl, by decide, rfl⟩

/-- Claim C5 (amended): a process whose per-process resource is absent or
unreadable is silently excluded from every detector's result; each
detector completes normally provided the resources it does read are
well-formed — non-empty environment blocks for `path_check` and
`preload_check` (otherwise an uncaught `NameError` can abort them),
non-empty numeric task listings for `thread_check`, and packet-table
lines with at least one field for `promiscuous_check`. -/
theorem detectors_skip_vanished (w : World)
    (hT : ∀ p ∈ w.pids, taskWF w p = true)
    (hE : ∀ p ∈ w.pids, envWF w p = true)
    (hP : packetWF w = true) :
    (∀ p, w.exe p = none → p ∉ deleted_check w) ∧
    (∀ p, w.cwd p = none → p ∉ cwd_check w) ∧
    isOkE (thread_check w) = true ∧
    isOkE (path_check w) = true ∧
    isOkE (preload_check w) = true ∧
    isOkE (promiscuous_check w) = true ∧
    (∀ p l, thread_check w = Except.ok l → w.task p = none → p ∉ l) ∧
    (∀ p l, path_check w = Except.ok l → w.environ p = none → p ∉ l) ∧
    (∀ p l, preload_check w = Except.ok l → w.environ p = none → p ∉ l) ∧
    (∀ p l, promiscuous_check w = Except.ok (some l) → w.fd p = none → p ∉ l) := by
  refine ⟨?_, ?_, ?_, ?_, ?_, ?_, ?_, ?_, ?_, ?_⟩
  · exact fun p h => deletedRun_skip w p h w.pids
  · intro p h hmem
    rcases (cwdRun_mem w p w.pids).mp hmem with ⟨_, s, hs, _⟩
    rw [h] at hs
    exact Option.noConfusion hs
  · rcases threadRun_ok w w.pids hT with ⟨r, hr⟩
    show isOkE (threadRun w w.pids) = true
    rw [hr]
    rfl
  · rcases envRun_ok w pathCondC w.pids none hE with ⟨r, hr⟩
    show isOkE (envRun w pathCondC none w.pids) = true
    rw [hr]
    rfl
  · rcases envRun_ok w preloadCondC w.pids none hE with ⟨r, hr⟩
    show isOkE (envRun w preloadCondC none w.pids) = true
    rw [hr]
    rfl
  · rcases hp : w.packet with _ | lines
    · simp only [isOkE, promiscuous_check, hp]
    · simp only [packetWF, hp, List.all_eq_true] at hP
      have hlines : ∀ s ∈ lines.drop 1, pySplitWs s.data ≠ [] := by
        intro s hs
        have := hP s hs
        simpa using this
      rcases buildInodes_ok (lines.drop 1) hlines with ⟨r, hb⟩
      simp only [isOkE, promiscuous_check, hp, hb]
  · intro p l hl hn hmem
    rcases (threadRun_mem w w.pids l hl p).mp hmem with ⟨_, hf⟩
    simp only [threadFlag, hn] at hf
    exact Bool.noConfusion hf
  · intro p l hl hn hmem
    exact (envRun_mem w pathCondC w.pids none l hl p hmem).2 hn
  · intro p l hl hn hmem
    exact (envRun_mem w preloadCondC w.pids none l hl p hmem).2 hn
  · intro p l hl hn hmem
    rcases hp : w.packet with _ | lines
    · simp only [promiscuous_check, hp] at hl
      simp at hl
    · rcases hb : buildInodes (lines.drop 1) with _ | inodes
      · simp only [promiscuous_check, hp, hb] at hl
        exact Except.noConfusion hl
      · simp only [promiscuous_check, hp, hb, Except.ok.injEq,
          Option.some.injEq] at hl
        subst hl
        exact promRun_skip w inodes p hn w.pids [] (List.not_mem_nil p) hmem

/-- Claim C5 witness: process 1 vanished entirely (every resource absent);
it is excluded from `deleted_check` and the environment and thread
detectors complete. -/
theorem detectors_skip_vanished_witness :
    (1 : Int) ∉ deleted_check w5w ∧ isOkE (path_check w5w) = true ∧
      isOkE (thread_check w5w) = true := by
  have h := detectors_skip_vanished w5w (by decide) (by decide) (by decide)
  exact ⟨h.1 1 rfl, h.2.2.2.1, h.2.2.1⟩

/-- Claim C6: every detector except `ps_check` only ever flags identifiers
drawn from the snapshot: whenever `deleted_check`, `cwd_check`,
`path_check`, `preload_check`, `thread_check` or `promiscuous_check`
produces a result list, each of its elements is a member of `w.pids`. -/
theorem detectors_subset_snapshot (w : World) (x : Int) :
    (x ∈ deleted_check w → x ∈ w.pids) ∧
    (x ∈ cwd_check w → x ∈ w.pids) ∧
    (∀ l, path_check w = Except.ok l → x ∈ l → x ∈ w.pids) ∧
    (∀ l, preload_check w = Except.ok l → x ∈ l → x ∈ w.pids) ∧
    (∀ l, thread_check w = Except.ok l → x ∈ l → x ∈ w.pids) ∧
    (∀ l, promiscuous_check w = Except.ok (some l) → x ∈ l → x ∈ w.pids) := by
  refine ⟨deletedRun_subset w x w.pids, ?_, ?_, ?_, ?_, ?_⟩
  · intro hx
    exact ((cwdRun_mem w x w.pids).mp hx).1
  · intro l hl hx
    exact (envRun_mem w pathCondC w.pids none l hl x hx).1
  · intro l hl hx
    exact (envRun_mem w preloadCondC w.pids none l hl x hx).1
  · intro l hl hx
    exact ((threadRun_mem w w.pids l hl x).mp hx).1
  · intro l hl hx
    rcases hp : w.packet with _ | lines
    · simp only [promiscuous_check, hp] at hl
      simp at hl
    · rcases hb : buildInodes (lines.drop 1) with _ | inodes
      · simp only [promiscuous_check, hp, hb] at hl
        exact Except.noConfusion hl
      · simp only [promiscuous_check, hp, hb, Except.ok.injEq,
          Option.some.injEq] at hl
        subst hl
        rcases promRun_mem w inodes x w.pids [] hx with h | h
        · exact absurd h (List.not_mem_nil x)
        · exact h

/-- Claim C6 witness: a process that trips every detector at once; each
result is `[3]` and `3` is indeed in the snapshot. -/
theorem detectors_subset_snapshot_witness :
    (3 : Int) ∈ w6w.pids ∧ deleted_check w6w = [3] ∧
      path_check w6w = Except.ok [3] ∧ thread_check w6w = Except.ok [3] ∧
      promiscuous_check w6w = Except.ok (some [3]) := by
  have h := detectors_subset_snapshot w6w 3
  exact ⟨h.2.2.2.2.2 [3] rfl (by decide), rfl, rfl, rfl, rfl⟩

/-- Claim C7: when `/proc/net/packet` does not exist, `promiscuous_check`
returns the distinguished unsupported value (the Python `-1`, modelled as
`Except.ok none`), which is never equal to any returned suspect list —
in particular not to the empty "clear" result. -/
theorem promiscuous_check_unsupported (w : World) (h : w.packet = none) :
    promiscuous_check w = Except.ok none ∧
      ∀ l : List Int, promiscuous_check w ≠ Except.ok (some l) := by
  refine ⟨by simp only [promiscuous_check, h], ?_⟩
  intro l hc
  simp only [promiscuous_check, h] at hc
  simp at hc

/-- Claim C7 witness: on the empty host without a packet table the result
is the unsupported value, distinct from the empty clear result. -/
theorem promiscuous_check_unsupported_witness :
    promiscuous_check w0 = Except.ok none ∧
      promiscuous_check w0 ≠ Except.ok (some []) :=
  ⟨(promiscuous_check_unsupported w0 rfl).1,
    (promiscuous_check_unsupported w0 rfl).2 []⟩

/-- Claim C8: `cwd_check` flags a process exactly when it is in the
snapshot and its working-directory link resolves to a path starting with
`/tmp`, `/dev/shm` or `/var/tmp`; the match is on the prefix, so
`/tmp/x` satisfies the condition and `/opt/tmp` does not. -/
theorem cwd_check_prefix_iff (w : World) (p : Int) :
    (p ∈ cwd_check w ↔ p ∈ w.pids ∧ ∃ s, w.cwd p = some s ∧ cwdCond s = true) ∧
      cwdCond "/tmp/x" = true ∧ cwdCond "/opt/tmp" = false :=
  ⟨cwdRun_mem w p w.pids, by decide, by decide⟩

/-- Claim C9, counterexample: assigning the empty list (which is a list
all of whose elements are integers) raises nothing but also does NOT
replace the stored snapshot — the loop body never executes. -/
theorem pids_setter_empty_list_noop :
    pids_setter [PyElem.int 7] (PyObj.list []) = ([PyElem.int 7], false) ∧
      ([PyElem.int 7] : List PyElem) ≠ ([] : List PyElem) :=
  ⟨rfl, by simp⟩

/-- Claim C9 (amended): assigning a NON-EMPTY list of integers replaces
the snapshot; assigning the empty list is accepted without error but
leaves the snapshot unchanged; assigning a non-list, or a list containing
a non-integer element, raises `TypeError`. -/
theorem pids_setter_validation (old : List PyElem) (l : List PyElem) :
    (l ≠ [] → (∀ e ∈ l, e.isInt = true) →
      pids_setter old (PyObj.list l) = (l, false)) ∧
    pids_setter old (PyObj.list []) = (old, false) ∧
    ((∃ e ∈ l, e.isInt = false) → (pids_setter old (PyObj.list l)).2 = true) ∧
    pids_setter old PyObj.nonList = (old, true) := by
  refine ⟨?_, rfl, ?_, rfl⟩
  · intro hne hall
    show setterRun l old l = (l, false)
    rw [setterRun_allInt l l old hall, if_neg hne]
  · intro hex
    exact setterRun_raises l l old hex

/-- Claim C9 witness: a non-empty all-integer list replaces the snapshot,
and a list with a non-integer element raises. -/
theorem pids_setter_validation_witness :
    pids_setter [PyElem.other] (PyObj.list [PyElem.int 1, PyElem.int 2]) =
        ([PyElem.int 1, PyElem.int 2], false) ∧
      (pids_setter [PyElem.other] (PyObj.list [PyElem.int 1, PyElem.other])).2 =
        true := by
  have h := pids_setter_validation [PyElem.other] [PyElem.int 1, PyElem.int 2]
  have h2 := pids_setter_validation [PyElem.other] [PyElem.int 1, PyElem.other]
  exact ⟨h.1 (by simp) (by decide), h2.2.2.1 ⟨PyElem.other, by simp, rfl⟩⟩

/-- Claim C10: when the assigned list starts with an integer but contains
a later non-integer, every integer element before the offender stores the
WHOLE assigned list into `_pids`, and then `TypeError` is raised: the
failed assignment leaves the invalid list as the value of the `pids`
property. -/
theorem pids_setter_nonatomic (old : List PyElem) (n : Int) (rest : List PyElem)
    (h : ∃ e ∈ rest, e.isInt = false) :
    pids_setter old (PyObj.list (PyElem.int n :: rest)) =
      (PyElem.int n :: rest, true) := by
  show setterRun (PyElem.int n :: rest) old (PyElem.int n :: rest) = _
  simp only [setterRun]
  exact setterRun_from_full (PyElem.int n :: rest) rest h

/-- Claim C10 witness: assigning `[1, <non-int>]` over the old snapshot
`[9]` leaves `_pids = [1, <non-int>]` and raises. -/
theorem pids_setter_nonatomic_witness :
    pids_setter [PyElem.int 9] (PyObj.list [PyElem.int 1, PyElem.other]) =
      ([PyElem.int 1, PyElem.other], true) :=
  pids_setter_nonatomic [PyElem.int 9] 1 [PyElem.other]
    ⟨PyElem.other, by simp, rfl⟩
